import Mathlib

/-!
Verification of the ibkr-assistant core (symbol normalization, option symbol
decoding, contract resolution with currency retry, market data acquisition and
price derivation) against its natural-language specification.

Strings from the Python source are modelled as lists of characters; Python
floats are modelled as rationals together with an explicit not-a-number
marker; fallible code returns explicit sum types.
-/

set_option maxRecDepth 100000
set_option maxHeartbeats 1600000

/-- Characters of a Python string. -/
abbrev Str := List Char

/-- Model of Python str.upper() restricted to character-wise uppercasing. -/
def pyUpper (s : Str) : Str := s.map Char.toUpper

/-- Model of Python str.strip(): drop leading and trailing whitespace. -/
def pyStrip (s : Str) : Str :=
  ((s.dropWhile Char.isWhitespace).reverse.dropWhile Char.isWhitespace).reverse

/-- Helper for pySplit: accumulate the current word (reversed) while scanning. -/
def pySplitGo : Str → Str → List Str
  | [], acc => if acc.isEmpty then [] else [acc.reverse]
  | c :: rest, acc =>
    if c.isWhitespace then
      if acc.isEmpty then pySplitGo rest []
      else acc.reverse :: pySplitGo rest []
    else pySplitGo rest (c :: acc)

/-- Model of Python str.split() with no arguments: split on whitespace runs,
dropping empty fields. -/
def pySplit (s : Str) : List Str := pySplitGo s []

/-- Model of the Python slice s[-n:]: the last n characters (whole string if
shorter than n). -/
def pyTakeLast (n : Nat) (s : Str) : Str := s.drop (s.length - n)

/-- Model of the Python slice s[-a:-b] for 0 < b < a: clamping at 0 exactly as
Python does on out-of-range negative indices. -/
def pySliceNeg (a b : Nat) (s : Str) : Str :=
  (s.take (s.length - b)).drop (s.length - a)

/-- Model of the Python slice s[a:b] for nonnegative a and b. -/
def pySliceNN (a b : Nat) (s : Str) : Str := (s.take b).drop a

/-- Numeric value of a digit string (most significant first). -/
def digitsVal (s : Str) : Nat := s.foldl (fun a c => a * 10 + (c.toNat - 48)) 0

/-- Model of Python float(s) on the shapes this program feeds it: an optionally
signed decimal numeral, digits with at most one decimal point. Returns none
where Python float() raises ValueError. -/
def parseFloat? (s : Str) : Option ℚ :=
  let s := pyStrip s
  let core : Str → Option ℚ := fun t =>
    if t.all Char.isDigit && !t.isEmpty then
      some (digitsVal t)
    else
      match t.splitOn '.' with
      | [a, b] =>
        if (a.all Char.isDigit && b.all Char.isDigit) && !(a.isEmpty && b.isEmpty) then
          some ((digitsVal a : ℚ) + (digitsVal b : ℚ) / (10 : ℚ) ^ b.length)
        else none
      | _ => none
  match s with
  | '-' :: rest => (core rest).map (fun q => -q)
  | '+' :: rest => core rest
  | _ => core s

/-- Python float values as delivered by the feed: a finite rational or the
not-a-number sentinel. -/
inductive PyFloat where
  | nan
  | val (q : ℚ)
deriving DecidableEq, Repr

/-- MARKET_SUFFIXES from src/api.py: suffix, exchange, currency, in the
dictionary insertion order the source iterates in. -/
def MARKET_SUFFIXES : List (Str × String × String) :=
  [ (".L".toList, "LSE", "GBP"),
    (".DE".toList, "IBIS", "EUR"),
    (".PA".toList, "SBF", "EUR"),
    (".AS".toList, "AEB", "EUR"),
    (".SW".toList, "EBS", "CHF"),
    (".MC".toList, "BM", "EUR"),
    (".MI".toList, "BVME", "EUR") ]

/-- Model of parse_symbol from src/api.py: uppercase and strip, scan the
suffix table in order, strip a matching suffix and return its venue and
currency, defaulting to SMART and USD. -/
def parse_symbol (symbol : Str) : Str × String × String :=
  let s := pyStrip (pyUpper symbol)
  match MARKET_SUFFIXES.find? (fun e => (pyUpper e.1).isSuffixOf s) with
  | some (suf, ex, cur) => (s.take (s.length - suf.length), ex, cur)
  | none => (s, "SMART", "USD")

/-- Result of the option-symbol decoding section of get_option_risk in
src/api.py (lines 231-281): the values bound just before the contract is
built. The venue returned by parse_symbol is recorded even though the option
contract construction ignores it. -/
structure Decoded where
  right : Str
  raw_ticker : Str
  expiry : Str
  strike_val : ℚ
  ticker : Str
  venue : String
  currency : String
  is_european : Bool
deriving DecidableEq, Repr

/-- Outcome of the decoding section: success, the explicit 400 invalid-format
rejection (which echoes the input), or a Python exception (ValueError from
float or IndexError from indexing) that the enclosing handler converts to a
generic 500 error. -/
inductive DecodeOut where
  | ok (d : Decoded)
  | badFormat (echoed : Str)
  | pyError (msg : String)
deriving DecidableEq, Repr

/-- The format probe of src/api.py line 239: length over 2, first character P
or C, second character a space. -/
def isEuropeanFormat (symbol : Str) : Bool :=
  decide (symbol.length > 2) &&
    (symbol.getD 0 ' ' == 'P' || symbol.getD 0 ' ' == 'C') &&
    (symbol.getD 1 'x' == ' ')

/-- The European branch of the decoding section (src/api.py lines 241-264):
split into whitespace tokens, reject fewer than four tokens with the explicit
400 error, parse the strike literally, normalize the raw ticker, and override
a default USD currency to EUR when the raw ticker carries no dot. -/
def decodeEuropean (symbol : Str) : DecodeOut :=
  match pySplit symbol with
  | right :: raw_ticker :: expiry :: strikeS :: _ =>
    match parseFloat? strikeS with
    | none => .pyError "could not convert string to float"
    | some strike_val =>
      let (ticker, exchange, currency) := parse_symbol raw_ticker
      let currency :=
        if currency == "USD" && !raw_ticker.contains '.' then "EUR" else currency
      .ok ⟨right, raw_ticker, expiry, strike_val, ticker, exchange, currency, true⟩
  | _ => .badFormat symbol

/-- The OSI branch of the decoding section (src/api.py lines 266-281): remove
internal spaces, read the strike from the last eight characters scaled by
1/1000, the right from the ninth-from-last character, the expiry from offsets
[-15,-9) prefixed with 20, and the raw ticker from everything before offset
-15. There is no length or numeric validation beyond what float() and
indexing raise on their own. -/
def decodeOSI (symbol : Str) : DecodeOut :=
  let clean := symbol.filter (fun c => c != ' ')
  match parseFloat? (pyTakeLast 8 clean) with
  | none => .pyError "could not convert string to float"
  | some sv =>
    let strike_val := sv / 1000
    if clean.length < 9 then .pyError "string index out of range"
    else
      let right := clean.getD (clean.length - 9) 'x'
      let expiry_raw := pySliceNeg 15 9 clean
      let expiry := '2' :: '0' ::
        (pySliceNN 0 2 expiry_raw ++ pySliceNN 2 4 expiry_raw ++ pySliceNN 4 6 expiry_raw)
      let raw_ticker := pyStrip (clean.take (clean.length - 15))
      let (ticker, exchange, currency) := parse_symbol raw_ticker
      .ok ⟨[right], raw_ticker, expiry, strike_val, ticker, exchange, currency, false⟩

/-- Model of the decoding section of get_option_risk (src/api.py lines
231-281): strip the input, probe the format, and dispatch to the European or
the OSI branch. -/
def decodeOption (symbol0 : Str) : DecodeOut :=
  let symbol := pyStrip symbol0
  if isEuropeanFormat symbol then decodeEuropean symbol else decodeOSI symbol

/-- Fields of the ib_async Option contract as constructed in get_option_risk
(src/api.py lines 284 and 295). -/
structure OptionContract where
  symbol : Str
  lastTradeDate : Str
  strike : ℚ
  right : Char
  exchange : String
  currency : String
deriving DecidableEq, Repr

/-- Contract construction from src/api.py lines 284 and 295: the exchange is
the literal SMART and the right is P exactly when the decoded right token is
the string P, C otherwise. -/
def buildContract (d : Decoded) (cur : String) : OptionContract :=
  ⟨d.ticker, d.expiry, d.strike_val, if d.right = ['P'] then 'P' else 'C', "SMART", cur⟩

/-- Currency candidates hard-coded in the retry loop at src/api.py line 292. -/
def candidateCurrencies : List String := ["EUR", "GBP", "CHF", "USD"]

/-- Outcome of contract resolution: attempted contracts in order, and the
first qualified contract if any (none models the 404 contract-not-found). -/
def tryAlternates (d : Decoded) (q : OptionContract → Bool) :
    List String → List OptionContract × Option OptionContract
  | [] => ([], none)
  | cur :: rest =>
    if cur = d.currency then tryAlternates d q rest
    else
      let c := buildContract d cur
      if q c then ([c], some c)
      else
        let (as, r) := tryAlternates d q rest
        (c :: as, r)

/-- Model of the qualification section of get_option_risk (src/api.py lines
284-302): build the contract with the decoded currency, qualify it, and when
that fails for a European-format input, loop over the candidate currencies
skipping the one already tried, stopping at the first success; the result is
none (HTTP 404 contract not found) when no attempt qualified. The predicate q
abstracts the gateway primitive qualifyContractsAsync together with the
truthiness test applied to its result. -/
def resolveContract (d : Decoded) (q : OptionContract → Bool) :
    List OptionContract × Option OptionContract :=
  let c0 := buildContract d d.currency
  if q c0 then ([c0], some c0)
  else if d.is_european then
    let (as, r) := tryAlternates d q candidateCurrencies
    (c0 :: as, r)
  else ([c0], none)

/-- Attempt list described by the claim: run through the candidates in order,
keeping every attempt up to and including the first success. -/
def attemptsUntil (q : OptionContract → Bool) : List OptionContract → List OptionContract
  | [] => []
  | c :: rest => if q c then [c] else c :: attemptsUntil q rest

/-- One set of option greeks as delivered by the feed: every field is either
absent (Python None) or a float, which may itself be the not-a-number
sentinel. -/
structure Greeks where
  delta : Option PyFloat
  gamma : Option PyFloat
  vega : Option PyFloat
  theta : Option PyFloat
  impliedVol : Option PyFloat
  undPrice : Option PyFloat
deriving DecidableEq, Repr

/-- The ticker object returned by client.ticker(...) in get_option_risk: the
four greeks sources, last trade price, volume, open interest, and the last
trade time (already formatted). -/
structure Ticker where
  modelGreeks : Option Greeks
  bidGreeks : Option Greeks
  askGreeks : Option Greeks
  lastGreeks : Option Greeks
  last : Option PyFloat
  volume : Option PyFloat
  openInterest : Option PyFloat
  lastTime : Option Str
deriving DecidableEq, Repr

/-- The expression t.modelGreeks or t.bidGreeks or t.askGreeks or t.lastGreeks
from src/api.py lines 315 and 326: first non-None greeks object (a greeks
object is always truthy in Python). -/
def selectGreeks (t : Ticker) : Option Greeks :=
  (((t.modelGreeks).orElse fun _ => t.bidGreeks).orElse fun _ => t.askGreeks).orElse
    fun _ => t.lastGreeks

/-- The break condition of the polling loop (src/api.py lines 314-317): some
greeks object is present, or last is present and not not-a-number. -/
def dataReady (t : Ticker) : Bool :=
  (selectGreeks t).isSome ||
    (match t.last with
     | some (.val _) => true
     | _ => false)

/-- What one polling iteration does: either client.ticker(...) returns a value
(None or a ticker object), or an exception is raised during the iteration
(for example a cancellation surfacing from the awaited sleep). -/
inductive PollStep where
  | ret (v : Option Ticker)
  | exn
deriving DecidableEq, Repr

/-- Truth value of the break test at one poll: the ticker must be truthy
(non-None) and the data-ready condition must hold. -/
def breakNow : PollStep → Bool
  | .ret (some tk) => dataReady tk
  | _ => false

/-- The polling loop of src/api.py lines 308-317: run the given number of
iterations starting at index i, overwriting t with each poll result, breaking
as soon as a truthy ticker satisfies the data-ready test, and propagating an
exception raised by an iteration. Returns the final value of t. -/
def runPolls (polls : Nat → PollStep) : Nat → Nat → Option Ticker → Except Unit (Option Ticker)
  | 0, _, t => .ok t
  | n + 1, i, _ =>
    match polls i with
    | .exn => .error ()
    | .ret v =>
      if (match v with
          | some tk => dataReady tk
          | none => false) then .ok v
      else runPolls polls n (i + 1) v

/-- The OptionGreeks response model populated at src/api.py lines 333-345. -/
structure OptionGreeksOut where
  symbol : Str
  delta : PyFloat
  gamma : PyFloat
  vega : PyFloat
  theta : PyFloat
  implied_vol : PyFloat
  underlying_price : PyFloat
  volume : Int
  open_interest : Int
  last_price : PyFloat
  last_date : Option Str
deriving DecidableEq, Repr

/-- The field pattern g.f if (g and g.f is not None) else 0.0 used for every
greek field at src/api.py lines 335-340: no not-a-number filtering is applied
here. -/
def gfield (g : Option Greeks) (f : Greeks → Option PyFloat) : PyFloat :=
  match g with
  | some gs =>
    match f gs with
    | some v => v
    | none => .val 0
  | none => .val 0

/-- Python int() truncation toward zero on a rational. -/
def pyInt (q : ℚ) : Int := q.num.tdiv q.den

/-- The pattern int(x) if (x is not None and not math.isnan(x)) else 0 used
for volume and open interest at src/api.py lines 341-342. -/
def intOrZero : Option PyFloat → Int
  | some (.val q) => pyInt q
  | _ => 0

/-- The pattern x if (x is not None and not math.isnan(x)) else 0.0 used for
last_price at src/api.py line 343. -/
def floatOrZero : Option PyFloat → PyFloat
  | some (.val q) => .val q
  | _ => .val 0

/-- Construction of the OptionGreeks response from the final ticker
(src/api.py lines 326-345). -/
def buildGreeksResult (sym : Str) (t : Ticker) : OptionGreeksOut :=
  let g := selectGreeks t
  { symbol := sym
    delta := gfield g Greeks.delta
    gamma := gfield g Greeks.gamma
    vega := gfield g Greeks.vega
    theta := gfield g Greeks.theta
    implied_vol := gfield g Greeks.impliedVol
    underlying_price := gfield g Greeks.undPrice
    volume := intOrZero t.volume
    open_interest := intOrZero t.openInterest
    last_price := floatOrZero t.last
    last_date := t.lastTime }

/-- Terminal outcome of the acquisition section. -/
inductive AcqResult where
  | result (r : OptionGreeksOut)
  | noMarketData
  | error
deriving DecidableEq, Repr

/-- Model of the acquisition section of get_option_risk (src/api.py lines
306-345), parameterized by the poll outcomes. The second component counts how
many times cancelMktData runs: the source calls it on the single line 320
after the loop, so an exception thrown during polling propagates to the
generic handler without any cancellation, while both the no-data 404 (line
323) and the normal result pass through exactly one cancellation. -/
def acquire (sym : Str) (polls : Nat → PollStep) : AcqResult × Nat :=
  match runPolls polls 50 0 none with
  | .error _ => (.error, 0)
  | .ok none => (.noMarketData, 1)
  | .ok (some tk) => (.result (buildGreeksResult sym tk), 1)

/-- Price fields of the stock ticker used by get_market_snapshot (src/api.py
lines 491-494): each one absent, not-a-number, or a finite value. -/
structure StkTicker where
  last : Option PyFloat
  bid : Option PyFloat
  ask : Option PyFloat
  close : Option PyFloat
deriving DecidableEq, Repr

/-- The filter x if (x is not None and not math.isnan(x)) else None applied to
each price field at src/api.py lines 491-494. -/
def finiteVal : Option PyFloat → Option ℚ
  | some (.val q) => some q
  | _ => none

/-- Python truthiness of an optional float after the finiteness filter: None
and 0.0 are falsy, every other value truthy. -/
def truthyQ : Option ℚ → Bool
  | some q => q != 0
  | none => false

/-- Model of the price extraction of get_market_snapshot (src/api.py lines
496-503): take last when present; otherwise the bid/ask midpoint when both
are truthy, else close when truthy, else the first truthy of bid and ask,
else 0.0. The truthiness tests are Python ones, so a 0.0 field counts as
absent in the midpoint and fallback branches. -/
def derivePrice (t : StkTicker) : ℚ :=
  let vb := finiteVal t.bid
  let va := finiteVal t.ask
  let vc := finiteVal t.close
  match finiteVal t.last with
  | some l => l
  | none =>
    if truthyQ vb && truthyQ va then (vb.getD 0 + va.getD 0) / 2
    else if truthyQ vc then vc.getD 0
    else if truthyQ vb then vb.getD 0
    else if truthyQ va then va.getD 0
    else 0

/-- Written from the claim wording for comparison with derivePrice: last if
present; else the midpoint whenever both bid and ask are present; else close
if present; else bid; else ask; else 0.0 - with presence meaning a non-NaN
value, regardless of whether it is zero. -/
def specPriceClaim (t : StkTicker) : ℚ :=
  match finiteVal t.last with
  | some l => l
  | none =>
    match finiteVal t.bid, finiteVal t.ask with
    | some b, some a => (b + a) / 2
    | vb, va =>
      match finiteVal t.close with
      | some c => c
      | none =>
        match vb with
        | some b => b
        | none =>
          match va with
          | some a => a
          | none => 0

/-- Written from the amended claim wording for comparison with derivePrice:
identical to the claimed precedence except that a present value equal to zero
is skipped by the midpoint, close, bid and ask fallbacks, exactly as Python
truthiness does. -/
def specPriceAmended (t : StkTicker) : ℚ :=
  match finiteVal t.last with
  | some l => l
  | none =>
    let nz : Option ℚ → Option ℚ := fun v =>
      match v with
      | some q => if q = 0 then none else some q
      | none => none
    match nz (finiteVal t.bid), nz (finiteVal t.ask) with
    | some b, some a => (b + a) / 2
    | vb, va =>
      match nz (finiteVal t.close) with
      | some c => c
      | none =>
        match vb with
        | some b => b
        | none =>
          match va with
          | some a => a
          | none => 0


theorem tryAlternates_eq (d : Decoded) (q : OptionContract → Bool) (cs : List String) :
    tryAlternates d q cs =
      (attemptsUntil q ((cs.filter (fun c => c != d.currency)).map (buildContract d)),
       ((cs.filter (fun c => c != d.currency)).map (buildContract d)).find? q) := by
  induction cs with
  | nil => rfl
  | cons c rest ih =>
    simp only [tryAlternates, List.filter_cons]
    by_cases hc : c = d.currency
    · have h1 : (c != d.currency) = false := by simp [hc]
      simp only [h1, if_pos hc, Bool.false_eq_true, if_false]
      exact ih
    · have h1 : (c != d.currency) = true := by simp [hc]
      simp only [h1, if_neg hc, if_true, List.map_cons]
      by_cases hq : q (buildContract d c)
      · simp only [hq, if_true, attemptsUntil, List.find?_cons_of_pos _ hq]
      · simp only [hq, if_false, attemptsUntil, List.find?_cons_of_neg _ hq, ih,
          Bool.false_eq_true]

theorem resolve_euro (d : Decoded) (q : OptionContract → Bool) (hv : d.is_european = true) :
    resolveContract d q =
      (attemptsUntil q
        ((d.currency :: candidateCurrencies.filter (fun c => c != d.currency)).map
          (buildContract d)),
       ((d.currency :: candidateCurrencies.filter (fun c => c != d.currency)).map
          (buildContract d)).find? q) := by
  by_cases hq : q (buildContract d d.currency)
  · simp only [resolveContract, hq, if_true, List.map_cons, attemptsUntil,
      List.find?_cons_of_pos _ hq]
  · simp only [resolveContract, hq, if_false, hv, if_true, tryAlternates_eq,
      List.map_cons, attemptsUntil, List.find?_cons_of_neg _ hq, Bool.false_eq_true]

theorem resolve_not_euro (d : Decoded) (q : OptionContract → Bool) (hv : d.is_european = false) :
    resolveContract d q =
      ([buildContract d d.currency],
       if q (buildContract d d.currency) then some (buildContract d d.currency) else none) := by
  by_cases hq : q (buildContract d d.currency)
  · simp [resolveContract, hq]
  · simp [resolveContract, hq, hv]

theorem tryAlternates_smart (d : Decoded) (q : OptionContract → Bool) (cs : List String) :
    ∀ c ∈ (tryAlternates d q cs).1, c.exchange = "SMART" := by
  induction cs with
  | nil => intro c hc; cases hc
  | cons x rest ih =>
    intro c hc
    simp only [tryAlternates] at hc
    by_cases hx : x = d.currency
    · rw [if_pos hx] at hc; exact ih c hc
    · rw [if_neg hx] at hc
      by_cases hq : q (buildContract d x)
      · rw [if_pos hq] at hc
        simp only [List.mem_singleton] at hc
        subst hc; rfl
      · rw [if_neg hq] at hc
        rcases List.mem_cons.mp hc with h | h
        · subst h; rfl
        · exact ih c h

theorem resolve_smart (d : Decoded) (q : OptionContract → Bool) :
    ∀ c ∈ (resolveContract d q).1, c.exchange = "SMART" := by
  intro c hc
  simp only [resolveContract] at hc
  by_cases hq : q (buildContract d d.currency)
  · rw [if_pos hq] at hc
    simp only [List.mem_singleton] at hc; subst hc; rfl
  · rw [if_neg hq] at hc
    by_cases he : d.is_european
    · rw [if_pos he] at hc
      rcases List.mem_cons.mp hc with h | h
      · subst h; rfl
      · exact tryAlternates_smart d q candidateCurrencies c h
    · rw [if_neg he] at hc
      simp only [List.mem_singleton] at hc; subst hc; rfl

theorem runPolls_no_break (polls : Nat → PollStep) :
    ∀ (n i : Nat) (t : Option Ticker) (v : Option Ticker),
      (∀ j, i ≤ j → j < i + n → polls j ≠ .exn ∧ breakNow (polls j) = false) →
      0 < n → polls (i + n - 1) = .ret v →
      runPolls polls n i t = .ok v := by
  intro n
  induction n with
  | zero => intro i t v _ h0; exact absurd h0 (by omega)
  | succ m ih =>
    intro i t v hall _ hlast
    have hi := hall i (le_refl i) (by omega)
    simp only [runPolls]
    rcases hp : polls i with w | _
    · have hbrk : breakNow (polls i) = false := hi.2
      rw [hp] at hbrk
      rcases w with _ | tk
      · simp only []
        cases m with
        | zero =>
          have : v = none := by
            have : polls (i + 1 - 1) = .ret v := by simpa using hlast
            simp only [Nat.add_sub_cancel] at this
            rw [hp] at this; injection this with h; exact h.symm
          subst this
          rfl
        | succ k =>
          exact ih (i + 1) none v
            (fun j hj1 hj2 => hall j (by omega) (by omega)) (by omega)
            (by have : i + 1 + (k + 1) - 1 = i + (k + 1 + 1) - 1 := by omega
                rw [this]; exact hlast)
      · simp only [breakNow] at hbrk
        simp only [hbrk, if_false]
        cases m with
        | zero =>
          have : polls i = .ret v := by simpa using hlast
          rw [hp] at this; injection this with h
          subst h; rfl
        | succ k =>
          exact ih (i + 1) (some tk) v
            (fun j hj1 hj2 => hall j (by omega) (by omega)) (by omega)
            (by have : i + 1 + (k + 1) - 1 = i + (k + 1 + 1) - 1 := by omega
                rw [this]; exact hlast)
    · exact absurd hp hi.1

theorem derive_eq_amended (t : StkTicker) : derivePrice t = specPriceAmended t := by
  rcases t with ⟨l, b, a, c⟩
  rcases l with _ | (_ | lq) <;> rcases b with _ | (_ | bq) <;>
    rcases a with _ | (_ | aq) <;> rcases c with _ | (_ | cq) <;>
    simp only [derivePrice, specPriceAmended, finiteVal, truthyQ] <;>
    split_ifs <;> simp_all [bne_iff_ne]

theorem gfield_some (gs : Greeks) (f : Greeks → Option PyFloat) :
    gfield (some gs) f = (f gs).getD (.val 0) := by
  cases h : f gs <;> simp [gfield, h, Option.getD]

/-- C5 (amended): the greeks result selects the first present greeks set in
the priority order model, bid, ask, last-trade; each greek field equals the
selected set's field whenever that field is non-null - including when the
value is the not-a-number sentinel, which is NOT filtered for greek fields -
and 0.0 when the field or the whole set is absent; not-a-number filtering is
applied to last price and volume (and open interest) but not to greeks. -/
theorem c5_greeks_fallback_amended (sym : Str) (t : Ticker) :
    (selectGreeks t = [t.modelGreeks, t.bidGreeks, t.askGreeks, t.lastGreeks].findSome? id) ∧
    (∀ gs, selectGreeks t = some gs →
      (buildGreeksResult sym t).delta = gs.delta.getD (.val 0) ∧
      (buildGreeksResult sym t).gamma = gs.gamma.getD (.val 0) ∧
      (buildGreeksResult sym t).vega = gs.vega.getD (.val 0) ∧
      (buildGreeksResult sym t).theta = gs.theta.getD (.val 0) ∧
      (buildGreeksResult sym t).implied_vol = gs.impliedVol.getD (.val 0) ∧
      (buildGreeksResult sym t).underlying_price = gs.undPrice.getD (.val 0)) ∧
    (selectGreeks t = none →
      (buildGreeksResult sym t).delta = .val 0 ∧
      (buildGreeksResult sym t).gamma = .val 0 ∧
      (buildGreeksResult sym t).vega = .val 0 ∧
      (buildGreeksResult sym t).theta = .val 0 ∧
      (buildGreeksResult sym t).implied_vol = .val 0 ∧
      (buildGreeksResult sym t).underlying_price = .val 0) ∧
    ((buildGreeksResult sym t).last_price =
      match t.last with
      | some (.val q) => .val q
      | _ => .val 0) ∧
    ((buildGreeksResult sym t).volume =
      match t.volume with
      | some (.val q) => pyInt q
      | _ => 0) := by
  refine ⟨?_, ?_, ?_, ?_, ?_⟩
  · rcases t with ⟨m, bg, ag, lg, _, _, _, _⟩
    rcases m <;> rcases bg <;> rcases ag <;> rcases lg <;> rfl
  · intro gs h
    simp [buildGreeksResult, h, gfield_some]
  · intro h
    simp [buildGreeksResult, h, gfield]
  · show floatOrZero t.last = _
    rcases t.last with _ | (_ | q) <;> rfl
  · show intOrZero t.volume = _
    rcases t.volume with _ | (_ | q) <;> rfl

/-- C2 (amended): when no poll raises and the required-field predicate is
never satisfied during the 50-poll ceiling, the outcome is determined by the
final poll: if it returned no snapshot (in particular when no snapshot ever
arrives), the call fails with the no-market-data error; if it returned a
snapshot, the call returns a greeks result built from that snapshot instead
of failing. The subscription is released exactly once either way. -/
theorem c2_poll_ceiling_behavior (sym : Str) (polls : Nat → PollStep) (v : Option Ticker)
    (hall : ∀ j, j < 50 → polls j ≠ .exn ∧ breakNow (polls j) = false)
    (hlast : polls 49 = .ret v) :
    acquire sym polls =
      ((match v with
        | none => .noMarketData
        | some tk => .result (buildGreeksResult sym tk)), 1) := by
  have h := runPolls_no_break polls 50 0 none v
    (fun j _ hj2 => hall j (by omega)) (by omega) (by simpa using hlast)
  simp only [acquire, h]
  cases v <;> rfl

theorem c2_poll_ceiling_behavior_witness :
    (∀ j, j < 50 → (fun _ : Nat => PollStep.ret none) j ≠ .exn ∧
      breakNow ((fun _ : Nat => PollStep.ret none) j) = false) ∧
    acquire [] (fun _ => .ret none) = (.noMarketData, 1) := by
  refine ⟨by intro j _; exact ⟨by simp, rfl⟩, ?_⟩
  exact c2_poll_ceiling_behavior [] (fun _ => .ret none) none (by intro j _; exact ⟨by simp, rfl⟩) rfl

theorem dropWhile_of_none {p : Char → Bool} {t : Str} (h : ∀ c ∈ t, p c = false) :
    t.dropWhile p = t := by
  cases t with
  | nil => rfl
  | cons c r => simp [List.dropWhile, h c (List.mem_cons_self c r)]

theorem pyStrip_fix {t : Str} (h : ∀ c ∈ t, c.isWhitespace = false) : pyStrip t = t := by
  have h1 : t.dropWhile Char.isWhitespace = t := dropWhile_of_none h
  have h2 : t.reverse.dropWhile Char.isWhitespace = t.reverse :=
    dropWhile_of_none (fun c hc => h c (List.mem_reverse.mp hc))
  rw [pyStrip, h1, h2, List.reverse_reverse]

theorem pyUpper_fix {t : Str} (h : ∀ c ∈ t, c.toUpper = c) : pyUpper t = t := by
  induction t with
  | nil => rfl
  | cons c r ih =>
    simp only [pyUpper, List.map_cons] at *
    rw [h c (List.mem_cons_self c r), ih (fun x hx => h x (List.mem_cons_of_mem c hx))]

theorem isSuffixOf_self_append (l₁ l₂ : Str) : l₂.isSuffixOf (l₁ ++ l₂) = true := by
  rw [List.isSuffixOf_iff_suffix]
  exact List.suffix_append l₁ l₂

theorem parse_symbol_append_suffix (t S : Str) (ex cur : String)
    (ht : ∀ c ∈ t, c.toUpper = c ∧ c.isWhitespace = false)
    (hS : S.map Char.toUpper = S) (hSw : ∀ c ∈ S, c.isWhitespace = false)
    (hfind : MARKET_SUFFIXES.find? (fun e => (pyUpper e.1).isSuffixOf (t ++ S)) =
      some (S, ex, cur)) :
    parse_symbol (t ++ S) = (t, ex, cur) := by
  have hu : pyUpper (t ++ S) = t ++ S := by
    rw [pyUpper, List.map_append, hS,
      show (t.map Char.toUpper) = t from pyUpper_fix (fun c hc => (ht c hc).1)]
  have hs : pyStrip (t ++ S) = t ++ S := by
    apply pyStrip_fix
    intro c hc
    rcases List.mem_append.mp hc with h | h
    · exact (ht c h).2
    · exact hSw c h
  rw [parse_symbol, hu, hs, hfind]
  simp only [List.length_append, Nat.add_sub_cancel]
  rw [List.take_left]

theorem c9_hit (t : Str) (suf : Str) (ex cur : String)
    (hmem : (suf, ex, cur) ∈ MARKET_SUFFIXES)
    (ht : ∀ c ∈ t, c.toUpper = c ∧ c.isWhitespace = false) :
    parse_symbol (t ++ suf) = (t, ex, cur) := by
  fin_cases hmem <;>
    exact parse_symbol_append_suffix t _ _ _ ht rfl
      (by decide)
      (by simp [MARKET_SUFFIXES, List.find?, pyUpper, List.isSuffixOf,
        List.reverse_append, List.isPrefixOf])

theorem c9_miss (s : Str)
    (h : ∀ e ∈ MARKET_SUFFIXES, (pyUpper e.1).isSuffixOf (pyStrip (pyUpper s)) = false) :
    parse_symbol s = (pyStrip (pyUpper s), "SMART", "USD") := by
  rw [parse_symbol, List.find?_eq_none.mpr (fun e he => by
    rw [h e he]; exact Bool.false_ne_true)]

theorem digit_facts {c : Char} (h : c.isDigit = true) :
    c.isWhitespace = false ∧ (c == ' ') = false ∧ (c == 'P') = false ∧ (c == 'C') = false := by
  simp only [Char.isDigit, Bool.and_eq_true, decide_eq_true_eq, ge_iff_le] at h
  have hlo : 48 ≤ c.val.toNat := by
    have h1 := h.1
    rw [UInt32.le_def, BitVec.le_def] at h1
    exact h1
  have hhi : c.val.toNat ≤ 57 := by
    have h1 := h.2
    rw [UInt32.le_def, BitVec.le_def] at h1
    exact h1
  have hval : ∀ d : Char, c = d → c.val.toNat = d.val.toNat := fun d hd => by rw [hd]
  have hx : ∀ d : Char, d.val.toNat < 48 ∨ 57 < d.val.toNat → ¬ (c = d) := by
    intro d hd hcd
    have := hval d hcd
    omega
  have hne : ∀ d : Char, d.val.toNat < 48 ∨ 57 < d.val.toNat → (c == d) = false := by
    intro d hd
    rw [beq_eq_false_iff_ne]
    exact hx d hd
  refine ⟨?_, hne ' ' (by decide), hne 'P' (by decide), hne 'C' (by decide)⟩
  simp only [Char.isWhitespace, Bool.or_eq_false_iff, decide_eq_false_iff_not]
  exact ⟨⟨⟨hx ' ' (by decide), hx '\t' (by decide)⟩, hx '\r' (by decide)⟩,
    hx '\n' (by decide)⟩

theorem not_ws_ne_space {c : Char} (h : c.isWhitespace = false) : (c == ' ') = false := by
  simp only [Char.isWhitespace, Bool.or_eq_false_iff, decide_eq_false_iff_not] at h
  rw [beq_eq_false_iff_ne]
  exact h.1.1.1

theorem parseFloat_digits {s : Str} (hd : ∀ c ∈ s, c.isDigit = true) (hne : s ≠ []) :
    parseFloat? s = some (digitsVal s) := by
  have hstrip : pyStrip s = s := pyStrip_fix (fun c hc => (digit_facts (hd c hc)).1)
  have hall : s.all Char.isDigit = true := List.all_eq_true.mpr hd
  have hemp : s.isEmpty = false := by
    cases s
    · exact absurd rfl hne
    · rfl
  unfold parseFloat?
  simp only [hstrip]
  split
  · exact absurd (hd '-' (List.mem_cons_self _ _)) (by decide)
  · exact absurd (hd '+' (List.mem_cons_self _ _)) (by decide)
  · simp [hall, hemp]

theorem six_slices {y : Str} (h : y.length = 6) :
    pySliceNN 0 2 y ++ pySliceNN 2 4 y ++ pySliceNN 4 6 y = y := by
  rcases y with _ | ⟨a, _ | ⟨b, _ | ⟨c, _ | ⟨d, _ | ⟨e, _ | ⟨f, tail⟩⟩⟩⟩⟩⟩ <;>
    simp only [List.length_cons, List.length_nil] at h
  · omega
  · omega
  · omega
  · omega
  · omega
  · omega
  · have : tail = [] := List.length_eq_zero.mp (by omega)
    subst this
    rfl


/-- C6: decoding the OSI encoding of any (ticker, expiry, right, strike)
tuple - ticker with no whitespace, six expiry digits, one right character,
eight strike digits - recovers the original tuple: the strike is the last
eight characters divided by 1000, the right is the ninth-from-last character,
the expiry is offsets [-15,-9) prefixed with 20, and the ticker is everything
before offset -15. -/
theorem c6_osi_roundtrip (ticker yymmdd strikeS : Str) (right : Char)
    (hT : ∀ c ∈ ticker, c.isWhitespace = false)
    (hY : ∀ c ∈ yymmdd, c.isDigit = true) (hYlen : yymmdd.length = 6)
    (hS : ∀ c ∈ strikeS, c.isDigit = true) (hSlen : strikeS.length = 8)
    (hR : right.isWhitespace = false) :
    decodeOption (ticker ++ yymmdd ++ [right] ++ strikeS) =
      .ok ⟨[right], ticker, '2' :: '0' :: yymmdd, (digitsVal strikeS : ℚ) / 1000,
        (parse_symbol ticker).1, (parse_symbol ticker).2.1, (parse_symbol ticker).2.2,
        false⟩ := by
  have hYne : yymmdd ≠ [] := by intro h; rw [h] at hYlen; simp at hYlen
  have hencWs : ∀ c ∈ ticker ++ yymmdd ++ [right] ++ strikeS, c.isWhitespace = false := by
    intro c hc
    rcases List.mem_append.mp hc with h | h
    · rcases List.mem_append.mp h with h | h
      · rcases List.mem_append.mp h with h | h
        · exact hT c h
        · exact (digit_facts (hY c h)).1
      · rw [List.mem_singleton.mp h]; exact hR
    · exact (digit_facts (hS c h)).1
  have hstrip : pyStrip (ticker ++ yymmdd ++ [right] ++ strikeS) =
      ticker ++ yymmdd ++ [right] ++ strikeS := pyStrip_fix hencWs
  have hfilter : (ticker ++ yymmdd ++ [right] ++ strikeS).filter (fun c => c != ' ') =
      ticker ++ yymmdd ++ [right] ++ strikeS := by
    apply List.filter_eq_self.mpr
    intro c hc
    have := not_ws_ne_space (hencWs c hc)
    simp [bne, this]
  have hlenE : (ticker ++ yymmdd ++ [right] ++ strikeS).length = ticker.length + 15 := by
    simp [hYlen, hSlen]
  have hgetD : (ticker ++ yymmdd ++ [right] ++ strikeS).getD
      (ticker.length + 15 - 9) 'x' = right := by
    rw [List.append_assoc (ticker ++ yymmdd) [right] strikeS]
    have hl2 : (ticker ++ yymmdd).length = ticker.length + 6 := by simp [hYlen]
    rw [show ticker.length + 15 - 9 = (ticker ++ yymmdd).length from by omega]
    rw [List.getD_append_right _ _ _ _ (le_refl _), Nat.sub_self]
    rfl
  have htake : pyTakeLast 8 (ticker ++ yymmdd ++ [right] ++ strikeS) = strikeS := by
    rw [pyTakeLast, hlenE]
    have hl3 : (ticker ++ yymmdd ++ [right]).length = ticker.length + 7 := by simp [hYlen]
    rw [show ticker.length + 15 - 8 = (ticker ++ yymmdd ++ [right]).length from by omega]
    exact List.drop_left _ _
  have hslice : pySliceNeg 15 9 (ticker ++ yymmdd ++ [right] ++ strikeS) = yymmdd := by
    rw [pySliceNeg, hlenE]
    have hl2 : (ticker ++ yymmdd).length = ticker.length + 6 := by simp [hYlen]
    rw [show ticker.length + 15 - 9 = (ticker ++ yymmdd).length from by omega]
    rw [List.append_assoc (ticker ++ yymmdd) [right] strikeS, List.take_left]
    rw [show ticker.length + 15 - 15 = ticker.length from by omega]
    exact List.drop_left _ _
  have htick : pyStrip ((ticker ++ yymmdd ++ [right] ++ strikeS).take
      (ticker.length + 15 - 15)) = ticker := by
    rw [show ticker.length + 15 - 15 = ticker.length from by omega]
    rw [List.append_assoc ticker yymmdd [right],
      List.append_assoc ticker (yymmdd ++ [right]) strikeS, List.take_left]
    exact pyStrip_fix hT
  have hEuro : isEuropeanFormat (ticker ++ yymmdd ++ [right] ++ strikeS) = false := by
    unfold isEuropeanFormat
    rcases ticker with _ | ⟨c0, _ | ⟨c1, ctail⟩⟩
    · rcases yymmdd with _ | ⟨y0, ytail⟩
      · exact absurd rfl hYne
      · have hy0 := digit_facts (hY y0 (List.mem_cons_self _ _))
        simp only [List.nil_append, List.cons_append, List.getD_cons_zero,
          hy0.2.2.1, hy0.2.2.2, Bool.or_false, Bool.and_false, Bool.false_and]
    · rcases yymmdd with _ | ⟨y0, ytail⟩
      · exact absurd rfl hYne
      · have hy0 := digit_facts (hY y0 (List.mem_cons_self _ _))
        have hy0s : (y0 == ' ') = false := hy0.2.1
        simp only [List.cons_append, List.nil_append, List.getD_cons_succ,
          List.getD_cons_zero, hy0s, Bool.and_false]
    · have hc1 : (c1 == ' ') = false :=
        not_ws_ne_space (hT c1 (List.mem_cons_of_mem c0 (List.mem_cons_self c1 ctail)))
      simp only [List.cons_append, List.getD_cons_succ, List.getD_cons_zero,
        hc1, Bool.and_false]
  have hfloat : parseFloat? (pyTakeLast 8 (ticker ++ yymmdd ++ [right] ++ strikeS)) =
      some ((digitsVal strikeS : ℚ)) := by
    rw [htake]
    exact parseFloat_digits hS (by intro h; rw [h] at hSlen; simp at hSlen)
  have hstep : decodeOption (ticker ++ yymmdd ++ [right] ++ strikeS) =
      decodeOSI (ticker ++ yymmdd ++ [right] ++ strikeS) := by
    unfold decodeOption
    rw [hstrip]
    simp only [hEuro, Bool.false_eq_true, if_false]
  rw [hstep]
  unfold decodeOSI
  rw [hfilter]
  simp only [hfloat, hlenE]
  rw [if_neg (by omega)]
  simp only [hgetD, hslice, htick, six_slices hYlen]

/-- C8: for any input that passes the European-format probe and splits into
at least four whitespace tokens with a numeric fourth token, decoding yields
right = token 1, raw ticker = token 2, expiry = token 3 unchanged, strike =
token 4 literally with no scaling, the normalized ticker, and the currency
override: EUR exactly when normalization yields the default USD and the raw
ticker carries no dot suffix. -/
theorem c8_european_decode (s r tk ex st : Str) (rest : List Str) (q : ℚ)
    (hfmt : isEuropeanFormat (pyStrip s) = true)
    (hsplit : pySplit (pyStrip s) = r :: tk :: ex :: st :: rest)
    (hq : parseFloat? st = some q) :
    ∃ d, decodeOption s = .ok d ∧ d.right = r ∧ d.raw_ticker = tk ∧ d.expiry = ex ∧
      d.strike_val = q ∧ d.ticker = (parse_symbol tk).1 ∧ d.is_european = true ∧
      (((parse_symbol tk).2.2 = "USD" ∧ tk.contains '.' = false) → d.currency = "EUR") ∧
      (¬ ((parse_symbol tk).2.2 = "USD" ∧ tk.contains '.' = false) →
        d.currency = (parse_symbol tk).2.2) := by
  have hstep : decodeOption s = decodeEuropean (pyStrip s) := by
    unfold decodeOption
    simp only [hfmt, if_true]
  rcases hps : parse_symbol tk with ⟨tkk, exx, cur⟩
  have hbody : decodeEuropean (pyStrip s) =
      .ok ⟨r, tk, ex, q, tkk, exx,
        if cur == "USD" && !tk.contains '.' then "EUR" else cur, true⟩ := by
    unfold decodeEuropean
    rw [hsplit]
    simp only [hq, hps]
  refine ⟨_, hstep.trans hbody, rfl, rfl, rfl, rfl, ?_, rfl, ?_, ?_⟩
  · simp [hps]
  · intro h
    have h1 : cur = "USD" := h.1
    have h2 : tk.contains '.' = false := h.2
    show (if (cur == "USD" && !tk.contains '.') = true then "EUR" else cur) = "EUR"
    rw [if_pos]
    rw [h1, h2]
    rfl
  · intro h
    show (if (cur == "USD" && !tk.contains '.') = true then "EUR" else cur) = cur
    rw [if_neg]
    intro hcond
    rw [Bool.and_eq_true] at hcond
    apply h
    refine ⟨eq_of_beq hcond.1, ?_⟩
    have := hcond.2
    simp only [Bool.not_eq_true'] at this
    exact this

example : parse_symbol "AAPL".toList = ("AAPL".toList, "SMART", "USD") := by decide
example : parse_symbol "BATS.L".toList = ("BATS".toList, "LSE", "GBP") := by decide
example : parse_symbol "rms.pa".toList = ("RMS".toList, "SBF", "EUR") := by decide

example :
    decodeOption "ASTS251114P00050000".toList =
      .ok ⟨"P".toList, "ASTS".toList, "20251114".toList, 50, "ASTS".toList,
        "SMART", "USD", false⟩ := by with_unfolding_all decide

/-- C1 (code bug): the claim requires the market-data subscription to be
released exactly once on every exit path, including an exception thrown
during polling. Evaluating the acquisition on a run whose first polling
iteration raises shows the generic error path is reached with zero
cancellations - the subscription leaks - while the normal no-data path
releases exactly once. -/
theorem c1_subscription_not_released_on_exception :
    acquire [] (fun _ => .exn) = (.error, 0) ∧
    acquire [] (fun _ => .ret none) = (.noMarketData, 1) := by decide

/-- C2 (counterexample): a run in which every poll returns a snapshot that
never satisfies the required-field predicate (no greeks, last price
not-a-number) does not fail with the no-market-data error as the claim
states; the code returns a zero-filled greeks result instead. -/
theorem c2_counterexample_predicate_never_satisfied :
    dataReady ⟨none, none, none, none, some .nan, none, none, none⟩ = false ∧
    acquire [] (fun _ => .ret (some ⟨none, none, none, none, some .nan, none, none, none⟩)) =
      (.result ⟨[], .val 0, .val 0, .val 0, .val 0, .val 0, .val 0, 0, 0, .val 0, none⟩, 1) := by
  decide

/-- C3 (counterexample): with last absent, bid present and equal to 0.0, ask
present and equal to 12, the claimed precedence demands the midpoint 6.0, but
the code returns 12.0 because Python truthiness treats the zero bid as
absent. -/
theorem c3_counterexample_zero_bid :
    derivePrice ⟨none, some (.val 0), some (.val 12), none⟩ = 12 ∧
    specPriceClaim ⟨none, some (.val 0), some (.val 12), none⟩ = 6 ∧
    derivePrice ⟨none, some (.val 0), some (.val 12), none⟩ ≠
      specPriceClaim ⟨none, some (.val 0), some (.val 12), none⟩ := by
  with_unfolding_all decide

/-- C3 (amended): the derived price follows the precedence last (if present,
even when zero) - else midpoint of bid and ask when both are present and
nonzero - else close when present and nonzero - else bid when present and
nonzero - else ask when present and nonzero - else 0.0, with not-a-number
normalized to absent; derivation is total, and the claim's examples hold:
last absent with bid 10 and ask 12 gives 11.0, and all absent gives 0.0. -/
theorem c3_amended_price_derivation :
    (∀ t, derivePrice t = specPriceAmended t) ∧
    derivePrice ⟨none, some (.val 10), some (.val 12), none⟩ = 11 ∧
    derivePrice ⟨none, none, none, none⟩ = 0 :=
  ⟨derive_eq_amended, by with_unfolding_all decide, by decide⟩

/-- C4: for a European-format decode, the resolver attempts the decoded
currency first and then the candidates EUR, GBP, CHF, USD in that fixed
order, skipping the currency already tried, stops at the first success, and
returns none (contract not found) exactly when every attempted candidate
fails; for a non-European decode no currency retry is attempted. -/
theorem c4_currency_fallback (d : Decoded) (q : OptionContract → Bool) :
    (d.is_european = true →
      resolveContract d q =
        (attemptsUntil q
          ((d.currency :: candidateCurrencies.filter (fun c => c != d.currency)).map
            (buildContract d)),
         ((d.currency :: candidateCurrencies.filter (fun c => c != d.currency)).map
            (buildContract d)).find? q)) ∧
    (d.is_european = true →
      ((resolveContract d q).2 = none ↔
        ∀ c ∈ (d.currency :: candidateCurrencies.filter (fun c => c != d.currency)).map
          (buildContract d), q c = false)) ∧
    (d.is_european = false →
      resolveContract d q = ([buildContract d d.currency],
        if q (buildContract d d.currency) then some (buildContract d d.currency)
        else none)) := by
  refine ⟨resolve_euro d q, fun he => ?_, resolve_not_euro d q⟩
  rw [resolve_euro d q he]
  rw [List.find?_eq_none]
  constructor
  · intro h c hc
    have := h c hc
    simp only [Bool.not_eq_true] at this
    exact this
  · intro h c hc
    rw [h c hc]
    exact Bool.false_ne_true

/-- C4 witness: a concrete European decode whose decoded currency is EUR and
whose qualification succeeds only for CHF. -/
theorem c4_currency_fallback_witness :
    (⟨"P".toList, "HMI".toList, "20260220".toList, 1900, "HMI".toList, "SMART", "EUR",
        true⟩ : Decoded).is_european = true ∧
    resolveContract
        ⟨"P".toList, "HMI".toList, "20260220".toList, 1900, "HMI".toList, "SMART", "EUR", true⟩
        (fun c => c.currency == "CHF") =
      (attemptsUntil (fun c => c.currency == "CHF")
        (((⟨"P".toList, "HMI".toList, "20260220".toList, 1900, "HMI".toList, "SMART", "EUR",
          true⟩ : Decoded).currency ::
            candidateCurrencies.filter (fun c => c !=
              (⟨"P".toList, "HMI".toList, "20260220".toList, 1900, "HMI".toList, "SMART",
                "EUR", true⟩ : Decoded).currency)).map
          (buildContract
            ⟨"P".toList, "HMI".toList, "20260220".toList, 1900, "HMI".toList, "SMART", "EUR",
              true⟩)),
       (((⟨"P".toList, "HMI".toList, "20260220".toList, 1900, "HMI".toList, "SMART", "EUR",
          true⟩ : Decoded).currency ::
            candidateCurrencies.filter (fun c => c !=
              (⟨"P".toList, "HMI".toList, "20260220".toList, 1900, "HMI".toList, "SMART",
                "EUR", true⟩ : Decoded).currency)).map
          (buildContract
            ⟨"P".toList, "HMI".toList, "20260220".toList, 1900, "HMI".toList, "SMART", "EUR",
              true⟩)).find? (fun c => c.currency == "CHF")) :=
  ⟨rfl,
    (c4_currency_fallback
      ⟨"P".toList, "HMI".toList, "20260220".toList, 1900, "HMI".toList, "SMART", "EUR", true⟩
      (fun c => c.currency == "CHF")).1 rfl⟩

/-- C5 (counterexample): a model greeks set whose delta arrives as the
not-a-number sentinel is selected, and its delta is passed through unfiltered
rather than being treated as absent and reported as 0.0 as the claim
states. -/
theorem c5_counterexample_nan_delta :
    (buildGreeksResult [] ⟨some ⟨some .nan, none, none, none, none, none⟩,
      none, none, none, none, none, none, none⟩).delta = .nan ∧
    PyFloat.nan ≠ PyFloat.val 0 := by decide

/-- C5 witness: concrete tickers with a present model set and with no greeks
sets at all. -/
theorem c5_greeks_fallback_amended_witness :
    selectGreeks ⟨some ⟨some (.val 1), none, none, none, none, none⟩,
      none, none, none, none, none, none, none⟩ =
      some ⟨some (.val 1), none, none, none, none, none⟩ ∧
    (buildGreeksResult [] ⟨some ⟨some (.val 1), none, none, none, none, none⟩,
      none, none, none, none, none, none, none⟩).delta =
      (⟨some (.val 1), none, none, none, none, none⟩ : Greeks).delta.getD (.val 0) ∧
    selectGreeks ⟨none, none, none, none, none, none, none, none⟩ = none ∧
    (buildGreeksResult [] ⟨none, none, none, none, none, none, none, none⟩).delta = .val 0 :=
  ⟨by decide,
    ((c5_greeks_fallback_amended []
      ⟨some ⟨some (.val 1), none, none, none, none, none⟩,
        none, none, none, none, none, none, none⟩).2.1
      ⟨some (.val 1), none, none, none, none, none⟩ (by decide)).1,
    by decide,
    ((c5_greeks_fallback_amended []
      ⟨none, none, none, none, none, none, none, none⟩).2.2.1 (by decide)).1⟩

/-- C6 witness: the claim's example ASTS251114P00050000 decodes to underlying
ASTS, right P, expiry 2025-11-14, strike 50.00. -/
theorem c6_osi_roundtrip_witness :
    (∀ c ∈ "ASTS".toList, c.isWhitespace = false) ∧
    (∀ c ∈ "251114".toList, c.isDigit = true) ∧
    (∀ c ∈ "00050000".toList, c.isDigit = true) ∧
    decodeOption ("ASTS".toList ++ "251114".toList ++ ['P'] ++ "00050000".toList) =
      .ok ⟨['P'], "ASTS".toList, '2' :: '0' :: "251114".toList,
        (digitsVal "00050000".toList : ℚ) / 1000, (parse_symbol "ASTS".toList).1,
        (parse_symbol "ASTS".toList).2.1, (parse_symbol "ASTS".toList).2.2, false⟩ ∧
    decodeOption "ASTS251114P00050000".toList =
      .ok ⟨"P".toList, "ASTS".toList, "20251114".toList, 50, "ASTS".toList, "SMART",
        "USD", false⟩ :=
  ⟨by decide, by decide, by decide,
    c6_osi_roundtrip "ASTS".toList "251114".toList "00050000".toList 'P'
      (by decide) (by decide) (by decide) (by decide) (by decide) (by decide),
    by with_unfolding_all decide⟩

/-- C7 (code bug): the claim says OSI inputs shorter than 15 characters or
with non-numeric strike or expiry substrings fail with a decode error that
echoes the input. Evaluating the decoder shows: a non-numeric expiry
(ASTSAB1114P00050000) decodes successfully, passing the malformed expiry
20AB1114 into the candidate contract; a 9-character input with numeric tail
also decodes successfully despite being shorter than 15; and an 8-character
numeric input raises a bare index error whose message does not echo the
input. -/
theorem c7_malformed_osi_not_decode_error :
    decodeOption "ASTSAB1114P00050000".toList =
      .ok ⟨"P".toList, "ASTS".toList, "20AB1114".toList, 50, "ASTS".toList, "SMART",
        "USD", false⟩ ∧
    decodeOption "A00050000".toList =
      .ok ⟨"A".toList, [], "20".toList, 50, [], "SMART", "USD", false⟩ ∧
    decodeOption "00050000".toList = .pyError "string index out of range" := by
  with_unfolding_all decide

/-- C8 witness: the claim's example P HMI  20260220 1900 M yields right P,
ticker HMI, expiry 2026-02-20, strike 1900, currency EUR. -/
theorem c8_european_decode_witness :
    isEuropeanFormat (pyStrip "P HMI  20260220 1900 M".toList) = true ∧
    pySplit (pyStrip "P HMI  20260220 1900 M".toList) =
      "P".toList :: "HMI".toList :: "20260220".toList :: "1900".toList :: ["M".toList] ∧
    (∃ d, decodeOption "P HMI  20260220 1900 M".toList = .ok d ∧
      d.right = "P".toList ∧ d.raw_ticker = "HMI".toList ∧ d.expiry = "20260220".toList ∧
      d.strike_val = 1900 ∧ d.ticker = (parse_symbol "HMI".toList).1 ∧
      d.is_european = true ∧
      (((parse_symbol "HMI".toList).2.2 = "USD" ∧ "HMI".toList.contains '.' = false) →
        d.currency = "EUR") ∧
      (¬ ((parse_symbol "HMI".toList).2.2 = "USD" ∧ "HMI".toList.contains '.' = false) →
        d.currency = (parse_symbol "HMI".toList).2.2)) ∧
    decodeOption "P HMI  20260220 1900 M".toList =
      .ok ⟨"P".toList, "HMI".toList, "20260220".toList, 1900, "HMI".toList, "SMART",
        "EUR", true⟩ :=
  ⟨by decide, by decide,
    c8_european_decode "P HMI  20260220 1900 M".toList "P".toList "HMI".toList
      "20260220".toList "1900".toList ["M".toList] 1900
      (by decide) (by decide) (by with_unfolding_all decide),
    by with_unfolding_all decide⟩

/-- C9: symbol normalization uppercases and trims, tests the fixed suffix
table in order against the end of the string, strips a matching suffix and
returns its venue and currency; with no table hit it returns the uppercased
stripped ticker with SMART and USD; it never fails, and in particular
normalize of ticker plus suffix yields exactly the mapped pair with the
suffix stripped, and normalize of AAPL yields AAPL, SMART, USD. -/
theorem c9_normalizer :
    (∀ (t suf : Str) (ex cur : String), (suf, ex, cur) ∈ MARKET_SUFFIXES →
      (∀ c ∈ t, c.toUpper = c ∧ c.isWhitespace = false) →
      parse_symbol (t ++ suf) = (t, ex, cur)) ∧
    (∀ s : Str,
      (∀ e ∈ MARKET_SUFFIXES, (pyUpper e.1).isSuffixOf (pyStrip (pyUpper s)) = false) →
      parse_symbol s = (pyStrip (pyUpper s), "SMART", "USD")) ∧
    parse_symbol "AAPL".toList = ("AAPL".toList, "SMART", "USD") :=
  ⟨c9_hit, c9_miss, by decide⟩

/-- C9 witness: BATS.L normalizes to BATS on the LSE venue in GBP. -/
theorem c9_normalizer_witness :
    (".L".toList, ("LSE" : String), ("GBP" : String)) ∈ MARKET_SUFFIXES ∧
    (∀ c ∈ "BATS".toList, c.toUpper = c ∧ c.isWhitespace = false) ∧
    parse_symbol ("BATS".toList ++ ".L".toList) = ("BATS".toList, "LSE", "GBP") :=
  ⟨by decide, by decide,
    c9_normalizer.1 "BATS".toList ".L".toList "LSE" "GBP" (by decide) (by decide)⟩

/-- C10: for every decoded option symbol, in both formats, every candidate
option contract submitted for qualification - the initial attempt and every
currency-retry attempt - carries the exchange SMART; the venue produced by
symbol normalization is discarded for option contracts. -/
theorem c10_option_exchange_smart (s : Str) (d : Decoded) (q : OptionContract → Bool)
    (hdec : decodeOption s = .ok d) :
    ∀ c ∈ (resolveContract d q).1, c.exchange = "SMART" :=
  fun c hc => resolve_smart d q c hc

/-- C10 witness: the European example decodes and every attempted contract
carries the SMART exchange. -/
theorem c10_option_exchange_smart_witness :
    decodeOption "P HMI  20260220 1900 M".toList =
      .ok ⟨"P".toList, "HMI".toList, "20260220".toList, 1900, "HMI".toList, "SMART",
        "EUR", true⟩ ∧
    (∀ c ∈ (resolveContract
        ⟨"P".toList, "HMI".toList, "20260220".toList, 1900, "HMI".toList, "SMART", "EUR",
          true⟩ (fun _ => false)).1, c.exchange = "SMART") :=
  ⟨by with_unfolding_all decide,
    c10_option_exchange_smart "P HMI  20260220 1900 M".toList
      ⟨"P".toList, "HMI".toList, "20260220".toList, 1900, "HMI".toList, "SMART", "EUR",
        true⟩ (fun _ => false) (by with_unfolding_all decide)⟩
